import Mathlib

/-!
# Double-buffer USART relay (`main.c`, `uart.h`)

A shallow embedding of `main` from `main.c`: the start-up sequence, and the
`while(1)` polling loop, both as one state transformer per iteration
(`loopBody`) and statement by statement (`mainStep`), so that the hardware can
act between any two statements of `main`.  The register-level driver behind
`uart.h` is not part of the repository (only its prototypes are), so the effect
of the driver on `bytesReceived`, on the buffers and on the outstanding
requests is modelled separately and kept apart from the code of `main`.
-/

namespace Relay

/-! ## uart.h -/

/-- Handle of a hardware block (`USART_HDL*` values used by `main.c`). -/
inductive USART_HDL where
  | USART1
  | USART2
  deriving DecidableEq, Repr

def USART_STATUS_OK : Nat := 0x0000
def USART_STATUS_ERROR : Nat := 0x0001

def USART_PARITY_NO : Nat := 0x0000
def USART_PARITY_ODD : Nat := 0x0001
def USART_PARITY_EVEN : Nat := 0x0002

def USART_STOP_BIT_1 : Nat := 0x0001
def USART_STOP_BIT_2 : Nat := 0x0002

def USART_RX : Nat := 0x0001
def USART_TX : Nat := 0x0002

/-- The configuration record of `uart.h`. -/
structure USART_SETTINGS_STRUCT where
  baudRate : Nat
  parityBit : Nat
  stopBitDuration : Nat
  mode : Nat
  deriving DecidableEq, Repr

/-! ## main.c : constants -/

def DATA_SIZE : Nat := 128
def NUMBER_OF_BUFFERS : Nat := 2

/-- One call made by `main` (directly or through `USART_Init`), with its
arguments.  A `data` pointer is always `input_buffer[i]`; it is recorded as the
index `i`.  The `received` pointer of `Usart_ReceiveData` is always
`&bytesReceived` and is not recorded. -/
inductive Call where
  | Platform_Specified_Init
  | GPIO_Init
  | Usart_Init (USARTx : USART_HDL) (usartSettings : USART_SETTINGS_STRUCT)
  | Usart_SetEnable (USARTx : USART_HDL)
  | Usart_SendData (USARTx : USART_HDL) (data : Nat) (size : Nat)
  | Usart_ReceiveData (USARTx : USART_HDL) (data : Nat) (size : Nat)
  deriving DecidableEq, Repr

/-- An outstanding transfer request: the buffer index and the byte count that
were passed to the driver. -/
structure Req where
  data : Nat
  size : Nat
  deriving DecidableEq, Repr

/-- Modelled from the spec: the two ways the absent driver may maintain
`*received` (section 4.1, `receive`): `incremental` zeroes the count when the
request is made and raises it with every stored byte; `atCompletion` leaves it
alone until the last byte of the request is stored and then writes `size`. -/
inductive CountPolicy where
  | incremental
  | atCompletion
  deriving DecidableEq, Repr

/-- The statement of the `while(1)` loop that `main` executes next:
the test of line 89, the re-arm of line 90, the copy of line 92, the toggle of
line 93, the send of line 94. -/
inductive Pc where
  | test
  | rearm
  | copy
  | toggle
  | send
  deriving DecidableEq, Repr

/-- The locals of `main`, the state of the (modelled) driver, and the record of
what `main` has called so far. -/
structure State where
  /-- Where `main` stands in its loop. -/
  pc : Pc
  /-- Local `uint8_t input_buffer[NUMBER_OF_BUFFERS][DATA_SIZE]`. -/
  input_buffer : List (List Nat)
  /-- Local `uint8_t input_buf_number`. -/
  input_buf_number : Nat
  /-- Local `uint8_t output_buf_number`. -/
  output_buf_number : Nat
  /-- Local `volatile uint32_t bytesReceived`. -/
  bytesReceived : Nat
  /-- Driver: receive requests not yet finished, oldest first (the buffers
  that are filling). -/
  filling : List Req
  /-- Driver: bytes stored so far for the oldest receive request. -/
  rxCount : Nat
  /-- Driver: send requests not yet finished, oldest first (the buffers that
  are draining). -/
  draining : List Req
  /-- Number of receive requests that completed with all their bytes. -/
  rxDone : Nat
  /-- Calls made so far, in order. -/
  trace : List Call
  /-- For every `Usart_SendData` call so far, the first `size` bytes of the
  buffer it was given, as they were when the call was made. -/
  txLog : List (List Nat)
  deriving DecidableEq, Repr

/-! ## The driver entry points used by `main` -/

/-- Call of `Usart_Init`: recorded in the trace. -/
def Usart_Init (s : State) (USARTx : USART_HDL)
    (usartSettings : USART_SETTINGS_STRUCT) : State :=
  { s with trace := s.trace ++ [Call.Usart_Init USARTx usartSettings] }

/-- Call of `Usart_SetEnable`: recorded in the trace. -/
def Usart_SetEnable (s : State) (USARTx : USART_HDL) : State :=
  { s with trace := s.trace ++ [Call.Usart_SetEnable USARTx] }

/-- Modelled from the spec: `Usart_ReceiveData` is non-blocking; the request
is queued on the receive channel, and under the incremental policy the count
behind `received` restarts from zero. -/
def Usart_ReceiveData (pol : CountPolicy) (s : State) (USARTx : USART_HDL)
    (data size : Nat) : State :=
  { s with
    trace := s.trace ++ [Call.Usart_ReceiveData USARTx data size]
    filling := s.filling ++ [Req.mk data size]
    bytesReceived :=
      match pol with
      | CountPolicy.incremental => 0
      | CountPolicy.atCompletion => s.bytesReceived }

/-- Modelled from the spec: `Usart_SendData` is non-blocking; the request is
queued on the transmit channel.  The bytes the buffer holds at the call are
logged. -/
def Usart_SendData (s : State) (USARTx : USART_HDL) (data size : Nat) : State :=
  { s with
    trace := s.trace ++ [Call.Usart_SendData USARTx data size]
    draining := s.draining ++ [Req.mk data size]
    txLog := s.txLog ++ [(s.input_buffer.getD data []).take size] }

/-! ## main.c : functions -/

/-- Function `static void USART_Init(void)`: one settings record, filled for USART1 and
then partly overwritten for USART2. -/
def USART_Init (s : State) : State :=
  let usartSettings : USART_SETTINGS_STRUCT :=
    { baudRate := 9600, mode := USART_RX, parityBit := USART_PARITY_NO,
      stopBitDuration := USART_STOP_BIT_1 }
  let s := Usart_Init s USART_HDL.USART1 usartSettings
  let usartSettings := { usartSettings with baudRate := 115200, mode := USART_TX }
  Usart_Init s USART_HDL.USART2 usartSettings

/-- The statements of `main` before `while(1)`.  `mem0` and `out0` are the
indeterminate initial contents of `input_buffer` and `output_buf_number`. -/
def mainStart (pol : CountPolicy) (mem0 : List (List Nat)) (out0 : Nat) : State :=
  let s : State :=
    { pc := Pc.test,
      input_buffer := mem0, input_buf_number := 0, output_buf_number := out0,
      bytesReceived := 0, filling := [], rxCount := 0, draining := [],
      rxDone := 0, trace := [Call.Platform_Specified_Init, Call.GPIO_Init],
      txLog := [] }
  let s := USART_Init s
  -- the declarations with their initial values (lines 78 to 81)
  let s := { s with input_buf_number := 0, bytesReceived := 0 }
  let s := Usart_SetEnable s USART_HDL.USART1
  let s := Usart_ReceiveData pol s USART_HDL.USART1 s.input_buf_number DATA_SIZE
  { s with input_buf_number := (s.input_buf_number ^^^ 1) % 256 }

/-- One iteration of the body of `while(1)` in `main`, run without
interruption. -/
def loopBody (pol : CountPolicy) (s : State) : State :=
  if s.bytesReceived = DATA_SIZE then
    let s := Usart_ReceiveData pol s USART_HDL.USART1 s.input_buf_number DATA_SIZE
    let s := { s with output_buf_number := s.input_buf_number }
    let s := { s with input_buf_number := (s.input_buf_number ^^^ 1) % 256 }
    Usart_SendData s USART_HDL.USART2 s.output_buf_number DATA_SIZE
  else s

/-- One statement of the loop of `main`: the statement at `pc` is executed and
`pc` moves on.  A failed test of line 89 leads back to the test. -/
def mainStep (pol : CountPolicy) (s : State) : State :=
  match s.pc with
  | Pc.test =>
    if s.bytesReceived = DATA_SIZE then { s with pc := Pc.rearm } else s
  | Pc.rearm =>
    { Usart_ReceiveData pol s USART_HDL.USART1 s.input_buf_number DATA_SIZE with
      pc := Pc.copy }
  | Pc.copy =>
    { s with output_buf_number := s.input_buf_number, pc := Pc.toggle }
  | Pc.toggle =>
    { s with input_buf_number := (s.input_buf_number ^^^ 1) % 256, pc := Pc.send }
  | Pc.send =>
    { Usart_SendData s USART_HDL.USART2 s.output_buf_number DATA_SIZE with
      pc := Pc.test }

/-! ## The environment of `main` -/

/-- Modelled from the spec: a byte arrives on the receive line.  Without an
outstanding receive request it is dropped; otherwise it is stored at the next
position of the oldest request's buffer, and the request completes when its
byte count is reached (section 4.1, state machine per channel). -/
def rxByte (pol : CountPolicy) (s : State) (b : Nat) : State :=
  match s.filling with
  | [] => s
  | r :: rest =>
    let mem := s.input_buffer.set r.data
      ((s.input_buffer.getD r.data []).set s.rxCount b)
    if r.size ≤ s.rxCount + 1 then
      { s with input_buffer := mem, filling := rest, rxCount := 0,
               bytesReceived := r.size, rxDone := s.rxDone + 1 }
    else
      { s with input_buffer := mem, rxCount := s.rxCount + 1,
               bytesReceived :=
                 match pol with
                 | CountPolicy.incremental => s.rxCount + 1
                 | CountPolicy.atCompletion => s.bytesReceived }

/-- Modelled from the spec: the oldest receive request ends with a non-OK
status (`USART_STATUS_ERROR`).  The request is over; the count is left where it
was.  `main` registers no callback, so nothing else is visible to it. -/
def rxError (s : State) : State :=
  { s with filling := s.filling.tail, rxCount := 0 }

/-- Modelled from the spec: the oldest send request has been transmitted. -/
def txDone (s : State) : State :=
  { s with draining := s.draining.tail }

/-- What can happen next: `main` executes its next statement, or the hardware
does something.  The hardware events can fall between any two statements of
`main`. -/
inductive Event where
  | stmt
  | rxByte (b : Nat)
  | rxError
  | txDone
  deriving DecidableEq, Repr

/-- One step of the system. -/
def step (pol : CountPolicy) (s : State) : Event → State
  | Event.stmt => mainStep pol s
  | Event.rxByte b => rxByte pol s b
  | Event.rxError => rxError s
  | Event.txDone => txDone s

/-- Run a schedule of events from a state. -/
def run (pol : CountPolicy) (s : State) (es : List Event) : State :=
  es.foldl (step pol) s

/-- The program `main` under a schedule: start-up, then the events. -/
def mainRun (pol : CountPolicy) (mem0 : List (List Nat)) (out0 : Nat)
    (es : List Event) : State :=
  run pol (mainStart pol mem0 out0) es

/-- The events that deliver a block of bytes, one byte at a time. -/
def feed (block : List Nat) : List Event :=
  block.map Event.rxByte

/-- The five statements of one hand-off iteration, with nothing in between. -/
def iteration : List Event :=
  List.replicate 5 Event.stmt

/-- How many times, along a schedule run from `s`, `main` executes the test
of line 89 and reads `DATA_SIZE`. -/
def testsPassed (pol : CountPolicy) : State → List Event → Nat
  | _, [] => 0
  | s, e :: es =>
    (if e = Event.stmt ∧ s.pc = Pc.test ∧ s.bytesReceived = DATA_SIZE then 1 else 0) +
      testsPassed pol (step pol s e) es

/-- How many statements of `main` a schedule holds. -/
def stmtCount : List Event → Nat
  | [] => 0
  | Event.stmt :: es => stmtCount es + 1
  | _ :: es => stmtCount es

/-! ## Reading the trace -/

/-- The `(channel, buffer, size)` of the `Usart_ReceiveData` calls, in order. -/
def recvCalls : List Call → List (USART_HDL × Nat × Nat)
  | [] => []
  | Call.Usart_ReceiveData h d n :: tr => (h, d, n) :: recvCalls tr
  | _ :: tr => recvCalls tr

/-- The `(channel, buffer, size)` of the `Usart_SendData` calls, in order. -/
def sendCalls : List Call → List (USART_HDL × Nat × Nat)
  | [] => []
  | Call.Usart_SendData h d n :: tr => (h, d, n) :: sendCalls tr
  | _ :: tr => sendCalls tr

/-- Is the call a `Usart_ReceiveData`? -/
def isRecv : Call → Bool
  | Call.Usart_ReceiveData _ _ _ => true
  | _ => false

/-- Is the call a `Usart_SendData`? -/
def isSend : Call → Bool
  | Call.Usart_SendData _ _ _ => true
  | _ => false

/-- Relation between two consecutive calls: a send comes right after a
receive. -/
def SendAfterRecv (a b : Call) : Prop :=
  isSend b = true → isRecv a = true

/-- Is `main` between the re-arm and the send of a hand-off? -/
def inFlight : Pc → Bool
  | Pc.copy => true
  | Pc.toggle => true
  | Pc.send => true
  | _ => false

/-- How many statements `main` needs to finish a hand-off it is in. -/
def remaining : Pc → Nat
  | Pc.test => 5
  | Pc.rearm => 4
  | Pc.copy => 3
  | Pc.toggle => 2
  | Pc.send => 1

/-- The driver calls the rest of a hand-off makes, read off the code from the
statement at `pc` to line 94. -/
def pendingCalls (s : State) : List Call :=
  match s.pc with
  | Pc.test =>
    [Call.Usart_ReceiveData USART_HDL.USART1 s.input_buf_number DATA_SIZE,
     Call.Usart_SendData USART_HDL.USART2 s.input_buf_number DATA_SIZE]
  | Pc.rearm =>
    [Call.Usart_ReceiveData USART_HDL.USART1 s.input_buf_number DATA_SIZE,
     Call.Usart_SendData USART_HDL.USART2 s.input_buf_number DATA_SIZE]
  | Pc.copy => [Call.Usart_SendData USART_HDL.USART2 s.input_buf_number DATA_SIZE]
  | Pc.toggle => [Call.Usart_SendData USART_HDL.USART2 s.output_buf_number DATA_SIZE]
  | Pc.send => [Call.Usart_SendData USART_HDL.USART2 s.output_buf_number DATA_SIZE]

/-- The send a hand-off past its re-arm still has to make. -/
def owedCalls (s : State) : List Call :=
  match s.pc with
  | Pc.copy => [Call.Usart_SendData USART_HDL.USART2 s.input_buf_number DATA_SIZE]
  | Pc.toggle => [Call.Usart_SendData USART_HDL.USART2 s.output_buf_number DATA_SIZE]
  | Pc.send => [Call.Usart_SendData USART_HDL.USART2 s.output_buf_number DATA_SIZE]
  | _ => []

/-- The scenario blocks of the spec: `0x00..0x7F` and `0x80..0xFF`. -/
def blockA : List Nat := List.range 128

def blockB : List Nat := (List.range 128).map (fun i => i + 128)

/-- Two buffers of 128 zero bytes, as a concrete initial content. -/
def zeroMem : List (List Nat) := [List.replicate 128 0, List.replicate 128 0]

/-! ## Invariants of the reachable states -/

/-- What the calls recorded so far look like: the receives alternate from
buffer 0, the sends alternate from buffer 1, a send comes right after a
receive, every re-arm but the one in flight has had its send, and the two
indices follow the number of calls. -/
structure TraceInv (s : State) : Prop where
  recv : recvCalls s.trace =
    (List.range (recvCalls s.trace).length).map
      (fun k => (USART_HDL.USART1, k % 2, DATA_SIZE))
  send : sendCalls s.trace =
    (List.range (sendCalls s.trace).length).map
      (fun k => (USART_HDL.USART2, (k + 1) % 2, DATA_SIZE))
  count : (recvCalls s.trace).length =
    (sendCalls s.trace).length + 1 + (if inFlight s.pc = true then 1 else 0)
  index : s.input_buf_number =
    (if s.pc = Pc.copy ∨ s.pc = Pc.toggle then (sendCalls s.trace).length + 1
      else (recvCalls s.trace).length) % 2
  out : s.pc = Pc.toggle ∨ s.pc = Pc.send →
    s.output_buf_number = ((sendCalls s.trace).length + 1) % 2
  chain : List.Chain' SendAfterRecv s.trace
  last : inFlight s.pc = true → ∀ x ∈ s.trace.getLast?, isRecv x = true
  first : s.trace.head? = some Call.Platform_Specified_Init
  noEnable2 : Call.Usart_SetEnable USART_HDL.USART2 ∉ s.trace

/-- Both policies: every queued receive asks for `DATA_SIZE` bytes, while
the count is not `DATA_SIZE` at most one receive is outstanding, and `main`
stands before the re-arm only with the count at `DATA_SIZE`. -/
structure QueueInv (s : State) : Prop where
  sizes : ∀ r ∈ s.filling, r.size = DATA_SIZE
  single : s.bytesReceived ≠ DATA_SIZE → s.filling.length ≤ 1
  armed : s.pc = Pc.rearm → s.bytesReceived = DATA_SIZE

/-- Incremental policy: at most one receive is outstanding, none once the
count reads `DATA_SIZE`, and the completed receives are the receive calls made,
less the one that is still to complete. -/
structure IncInv (s : State) : Prop where
  sizes : ∀ r ∈ s.filling, r.size = DATA_SIZE
  single : s.filling.length ≤ 1
  ready : s.bytesReceived = DATA_SIZE →
    s.filling = [] ∧ s.rxDone = (recvCalls s.trace).length
  waiting : s.bytesReceived ≠ DATA_SIZE →
    s.rxDone + 1 = (recvCalls s.trace).length
  armed : s.pc = Pc.rearm → s.bytesReceived = DATA_SIZE

/-- The count reads `DATA_SIZE` and the hardware cannot change that before
the next re-arm. -/
structure Holds128 (pol : CountPolicy) (s : State) : Prop where
  full : s.bytesReceived = DATA_SIZE
  sizes : ∀ r ∈ s.filling, r.size = DATA_SIZE
  idle : pol = CountPolicy.incremental → s.filling = []

/-- No receive is outstanding, the count is not `DATA_SIZE`, and `main` does
not stand before a re-arm. -/
structure Dead (s : State) : Prop where
  idle : s.filling = []
  short : s.bytesReceived ≠ DATA_SIZE
  notArmed : s.pc ≠ Pc.rearm

/-! ## Basic facts about the steps -/

theorem run_cons (pol : CountPolicy) (s : State) (e : Event) (es : List Event) :
    run pol s (e :: es) = run pol (step pol s e) es := rfl

theorem run_append (pol : CountPolicy) (s : State) (a b : List Event) :
    run pol s (a ++ b) = run pol (run pol s a) b := by
  simp [run, List.foldl_append]

theorem mainRun_append (pol : CountPolicy) (mem0 : List (List Nat)) (out0 : Nat)
    (a b : List Event) :
    mainRun pol mem0 out0 (a ++ b) = run pol (mainRun pol mem0 out0 a) b :=
  run_append pol _ a b

/-- Induction principle for the states `main` can reach: a property that holds
after start-up and is kept by every step holds after every schedule. -/
theorem run_induction (pol : CountPolicy) (P : State → Prop) (s : State)
    (h0 : P s) (hstep : ∀ t e, P t → P (step pol t e)) (es : List Event) :
    P (run pol s es) := by
  induction es generalizing s with
  | nil => exact h0
  | cons e es ih => exact ih (step pol s e) (hstep s e h0)

theorem recvCalls_append (a b : List Call) :
    recvCalls (a ++ b) = recvCalls a ++ recvCalls b := by
  induction a with
  | nil => rfl
  | cons c a ih => cases c <;> simp [recvCalls, ih]

theorem sendCalls_append (a b : List Call) :
    sendCalls (a ++ b) = sendCalls a ++ sendCalls b := by
  induction a with
  | nil => rfl
  | cons c a ih => cases c <;> simp [sendCalls, ih]

/-- The `^= 1` on a `uint8_t` that holds 0 or 1 gives the other index. -/
theorem toggle_index (m : Nat) (h : m < 2) : (m ^^^ 1) % 256 = 1 - m := by
  interval_cases m <;> rfl

theorem loopBody_idle (pol : CountPolicy) (s : State)
    (h : s.bytesReceived ≠ DATA_SIZE) : loopBody pol s = s := by
  simp [loopBody, h]

theorem loopBody_trace (pol : CountPolicy) (s : State)
    (h : s.bytesReceived = DATA_SIZE) :
    (loopBody pol s).trace = s.trace ++
      [Call.Usart_ReceiveData USART_HDL.USART1 s.input_buf_number DATA_SIZE,
       Call.Usart_SendData USART_HDL.USART2 s.input_buf_number DATA_SIZE] := by
  simp [loopBody, h, Usart_ReceiveData, Usart_SendData]

theorem loopBody_input_buf_number (pol : CountPolicy) (s : State)
    (h : s.bytesReceived = DATA_SIZE) :
    (loopBody pol s).input_buf_number = (s.input_buf_number ^^^ 1) % 256 := by
  simp [loopBody, h, Usart_ReceiveData, Usart_SendData]

theorem loopBody_output_buf_number (pol : CountPolicy) (s : State)
    (h : s.bytesReceived = DATA_SIZE) :
    (loopBody pol s).output_buf_number = s.input_buf_number := by
  simp [loopBody, h, Usart_ReceiveData, Usart_SendData]

/-- Five statements in a row, started at the test of line 89, are one
iteration of the loop body. -/
theorem iteration_eq_loopBody (pol : CountPolicy) (s : State)
    (hpc : s.pc = Pc.test) : run pol s iteration = loopBody pol s := by
  obtain ⟨pc, mem, ibn, obn, cnt, fl, rc, dr, rd, tr, tx⟩ := s
  simp only at hpc
  subst hpc
  by_cases h : cnt = DATA_SIZE
  · cases pol <;>
      simp [iteration, run, step, mainStep, loopBody, h, Usart_ReceiveData,
        Usart_SendData, List.replicate]
  · simp [iteration, run, step, mainStep, loopBody, h, List.replicate]

theorem rxByte_frame (pol : CountPolicy) (s : State) (b : Nat) :
    (rxByte pol s b).trace = s.trace ∧ (rxByte pol s b).pc = s.pc ∧
      (rxByte pol s b).input_buf_number = s.input_buf_number ∧
      (rxByte pol s b).output_buf_number = s.output_buf_number := by
  unfold rxByte
  split
  · exact ⟨rfl, rfl, rfl, rfl⟩
  · split <;> exact ⟨rfl, rfl, rfl, rfl⟩

/-- The hardware never touches the trace, the place of `main` in its loop, or
the two indices. -/
theorem hw_frame (pol : CountPolicy) (s : State) (e : Event)
    (he : e ≠ Event.stmt) :
    (step pol s e).trace = s.trace ∧ (step pol s e).pc = s.pc ∧
      (step pol s e).input_buf_number = s.input_buf_number ∧
      (step pol s e).output_buf_number = s.output_buf_number := by
  cases e with
  | stmt => exact absurd rfl he
  | rxByte b => exact rxByte_frame pol s b
  | rxError => exact ⟨rfl, rfl, rfl, rfl⟩
  | txDone => exact ⟨rfl, rfl, rfl, rfl⟩

/-- A schedule without statements of `main` leaves the trace as it is. -/
theorem run_hw_trace (pol : CountPolicy) (es : List Event) (s : State)
    (h : stmtCount es = 0) : (run pol s es).trace = s.trace := by
  induction es generalizing s with
  | nil => rfl
  | cons e es ih =>
    cases e with
    | stmt => simp [stmtCount] at h
    | rxByte b =>
      rw [run_cons, ih _ (by simpa [stmtCount] using h)]
      exact (hw_frame pol s _ (by simp)).1
    | rxError =>
      rw [run_cons, ih _ (by simpa [stmtCount] using h)]
      rfl
    | txDone =>
      rw [run_cons, ih _ (by simpa [stmtCount] using h)]
      rfl

/-! ## The shape of the trace -/

theorem traceInv_congr (s t : State) (h : TraceInv s)
    (htr : t.trace = s.trace) (hpc : t.pc = s.pc)
    (hi : t.input_buf_number = s.input_buf_number)
    (ho : t.output_buf_number = s.output_buf_number) : TraceInv t := by
  constructor
  · rw [htr]; exact h.recv
  · rw [htr]; exact h.send
  · rw [htr, hpc]; exact h.count
  · rw [htr, hpc, hi]; exact h.index
  · rw [htr, hpc, ho]; exact h.out
  · rw [htr]; exact h.chain
  · rw [htr, hpc]; exact h.last
  · rw [htr]; exact h.first
  · rw [htr]; exact h.noEnable2

theorem traceInv_start (pol : CountPolicy) (mem0 : List (List Nat)) (out0 : Nat) :
    TraceInv (mainStart pol mem0 out0) := by
  constructor <;>
    simp [mainStart, USART_Init, Usart_Init, Usart_SetEnable, Usart_ReceiveData,
      recvCalls, sendCalls, SendAfterRecv, isSend, isRecv, inFlight]
  · decide

theorem traceInv_stmt (pol : CountPolicy) (s : State) (h : TraceInv s) :
    TraceInv (mainStep pol s) := by
  have h1 := h.recv
  have h2 := h.send
  have h3 := h.count
  have h4 := h.index
  have h5 := h.out
  have h6 := h.chain
  have h7 := h.last
  have h8 := h.first
  have h9 := h.noEnable2
  cases hpc : s.pc with
  | test =>
    by_cases hb : s.bytesReceived = DATA_SIZE
    · have ht : mainStep pol s = { s with pc := Pc.rearm } := by
        simp [mainStep, hpc, hb]
      rw [ht]
      simp only [hpc, inFlight] at h3 h4
      simp at h3 h4
      constructor
      · exact h1
      · exact h2
      · simpa [inFlight] using h3
      · simpa using h4
      · simp
      · exact h6
      · simp [inFlight]
      · exact h8
      · exact h9
    · have ht : mainStep pol s = s := by simp [mainStep, hpc, hb]
      rw [ht]
      exact h
  | rearm =>
    have ht : (mainStep pol s).trace = s.trace ++
        [Call.Usart_ReceiveData USART_HDL.USART1 s.input_buf_number DATA_SIZE] := by
      simp [mainStep, hpc, Usart_ReceiveData]
    have hp : (mainStep pol s).pc = Pc.copy := by simp [mainStep, hpc]
    have hi : (mainStep pol s).input_buf_number = s.input_buf_number := by
      simp [mainStep, hpc, Usart_ReceiveData]
    simp only [hpc, inFlight] at h3 h4
    simp at h3 h4
    have hr : recvCalls (mainStep pol s).trace = recvCalls s.trace ++
        [(USART_HDL.USART1, s.input_buf_number, DATA_SIZE)] := by
      rw [ht, recvCalls_append]; rfl
    have hs : sendCalls (mainStep pol s).trace = sendCalls s.trace := by
      rw [ht, sendCalls_append]; simp [sendCalls]
    constructor
    · rw [hr, List.length_append, List.length_singleton, List.range_succ,
        List.map_append, ← h1, h4]
      rfl
    · rw [hs]; exact h2
    · rw [hr, hs, hp]; simp [inFlight, h3]
    · rw [hp, hi, hs, h4, h3]; simp
    · rw [hp]; simp
    · rw [ht]
      refine List.Chain'.append h6 (by simp) ?_
      intro x _ y hy
      simp at hy
      subst hy
      simp [SendAfterRecv, isSend]
    · intro _
      rw [ht]
      simp [isRecv]
    · rw [ht]
      cases hq : s.trace with
      | nil => rw [hq] at h8; simp at h8
      | cons c tr => rw [hq] at h8; simpa using h8
    · rw [ht]
      intro hmem
      rcases List.mem_append.mp hmem with hm | hm
      · exact h9 hm
      · simp at hm
  | copy =>
    have ht : mainStep pol s =
        { s with output_buf_number := s.input_buf_number, pc := Pc.toggle } := by
      simp [mainStep, hpc]
    rw [ht]
    simp only [hpc, inFlight] at h3 h4 h7
    simp at h3 h4 h7
    constructor
    · exact h1
    · exact h2
    · simpa [inFlight] using h3
    · simpa using h4
    · intro _
      exact h4
    · exact h6
    · intro _
      exact h7
    · exact h8
    · exact h9
  | toggle =>
    have ht : mainStep pol s =
        { s with input_buf_number := (s.input_buf_number ^^^ 1) % 256,
                 pc := Pc.send } := by
      simp [mainStep, hpc]
    rw [ht]
    simp only [hpc, inFlight] at h3 h4 h5 h7
    simp at h3 h4 h5 h7
    have hlt : s.input_buf_number < 2 := by
      rw [h4]; exact Nat.mod_lt _ (by decide)
    constructor
    · exact h1
    · exact h2
    · simpa [inFlight] using h3
    · show (s.input_buf_number ^^^ 1) % 256 = _
      rw [toggle_index _ hlt, h4, h3]
      simp
      omega
    · intro _
      exact h5
    · exact h6
    · intro _
      exact h7
    · exact h8
    · exact h9
  | send =>
    have ht : (mainStep pol s).trace = s.trace ++
        [Call.Usart_SendData USART_HDL.USART2 s.output_buf_number DATA_SIZE] := by
      simp [mainStep, hpc, Usart_SendData]
    have hp : (mainStep pol s).pc = Pc.test := by simp [mainStep, hpc]
    have hi : (mainStep pol s).input_buf_number = s.input_buf_number := by
      simp [mainStep, hpc, Usart_SendData]
    simp only [hpc, inFlight] at h3 h4 h5 h7
    simp at h3 h4 h5 h7
    have hr : recvCalls (mainStep pol s).trace = recvCalls s.trace := by
      rw [ht, recvCalls_append]; simp [recvCalls]
    have hs : sendCalls (mainStep pol s).trace = sendCalls s.trace ++
        [(USART_HDL.USART2, s.output_buf_number, DATA_SIZE)] := by
      rw [ht, sendCalls_append]; rfl
    constructor
    · rw [hr]; exact h1
    · rw [hs, List.length_append, List.length_singleton, List.range_succ,
        List.map_append, ← h2, h5]
      rfl
    · rw [hr, hs, hp, h3]; simp [inFlight]
    · rw [hp, hi, hr, h4]; simp
    · rw [hp]; simp
    · rw [ht]
      refine List.Chain'.append h6 (by simp) ?_
      intro x hx y hy
      simp at hy
      subst hy
      intro _
      exact h7 x hx
    · rw [hp]; simp [inFlight]
    · rw [ht]
      cases hq : s.trace with
      | nil => rw [hq] at h8; simp at h8
      | cons c tr => rw [hq] at h8; simpa using h8
    · rw [ht]
      intro hmem
      rcases List.mem_append.mp hmem with hm | hm
      · exact h9 hm
      · simp at hm

theorem traceInv_step (pol : CountPolicy) (s : State) (e : Event)
    (h : TraceInv s) : TraceInv (step pol s e) := by
  by_cases he : e = Event.stmt
  · subst he
    exact traceInv_stmt pol s h
  · obtain ⟨h1, h2, h3, h4⟩ := hw_frame pol s e he
    exact traceInv_congr s _ h h1 h2 h3 h4

theorem traceInv_run (pol : CountPolicy) (mem0 : List (List Nat)) (out0 : Nat)
    (es : List Event) : TraceInv (mainRun pol mem0 out0 es) :=
  run_induction pol TraceInv _ (traceInv_start pol mem0 out0)
    (fun t e ht => traceInv_step pol t e ht) es

/-! ## The receive queue and the count -/

theorem incInv_start (mem0 : List (List Nat)) (out0 : Nat) :
    IncInv (mainStart CountPolicy.incremental mem0 out0) := by
  constructor <;>
    simp [mainStart, USART_Init, Usart_Init, Usart_SetEnable, Usart_ReceiveData,
      recvCalls, DATA_SIZE]

theorem incInv_stmt (s : State) (h : IncInv s) :
    IncInv (mainStep CountPolicy.incremental s) := by
  obtain ⟨hs, h1, hr, hw, ha⟩ := h
  cases hpc : s.pc with
  | test =>
    by_cases hb : s.bytesReceived = DATA_SIZE
    · have ht : mainStep CountPolicy.incremental s = { s with pc := Pc.rearm } := by
        simp [mainStep, hpc, hb]
      rw [ht]
      exact ⟨hs, h1, hr, hw, fun _ => hb⟩
    · have ht : mainStep CountPolicy.incremental s = s := by simp [mainStep, hpc, hb]
      rw [ht]
      exact ⟨hs, h1, hr, hw, ha⟩
  | rearm =>
    obtain ⟨hf, hd⟩ := hr (ha hpc)
    constructor <;>
      simp [mainStep, hpc, Usart_ReceiveData, hf, hd, recvCalls_append, recvCalls,
        DATA_SIZE]
  | copy =>
    have ht : mainStep CountPolicy.incremental s =
        { s with output_buf_number := s.input_buf_number, pc := Pc.toggle } := by
      simp [mainStep, hpc]
    rw [ht]
    exact ⟨hs, h1, hr, hw, by simp⟩
  | toggle =>
    have ht : mainStep CountPolicy.incremental s =
        { s with input_buf_number := (s.input_buf_number ^^^ 1) % 256,
                 pc := Pc.send } := by
      simp [mainStep, hpc]
    rw [ht]
    exact ⟨hs, h1, hr, hw, by simp⟩
  | send =>
    constructor
    · simpa [mainStep, hpc, Usart_SendData] using hs
    · simpa [mainStep, hpc, Usart_SendData] using h1
    · simpa [mainStep, hpc, Usart_SendData, recvCalls_append, recvCalls] using hr
    · simpa [mainStep, hpc, Usart_SendData, recvCalls_append, recvCalls] using hw
    · simp [mainStep, hpc]

theorem incInv_step (s : State) (e : Event) (h : IncInv s) :
    IncInv (step CountPolicy.incremental s e) := by
  cases e with
  | stmt => exact incInv_stmt s h
  | rxByte b =>
    cases hq : s.filling with
    | nil =>
      have : rxByte CountPolicy.incremental s b = s := by simp [rxByte, hq]
      simpa [step, this] using h
    | cons r rest =>
      have hrest : rest = [] := by
        have := h.single
        rw [hq] at this
        simpa using this
      have hr : r.size = DATA_SIZE := h.sizes r (by rw [hq]; simp)
      have hb : s.bytesReceived ≠ DATA_SIZE := by
        intro hb
        have := (h.ready hb).1
        rw [hq] at this
        simp at this
      have hd := h.waiting hb
      have hp : s.pc ≠ Pc.rearm := fun hp => hb (h.armed hp)
      subst hrest
      by_cases hc : r.size ≤ s.rxCount + 1
      · rw [hr] at hc
        constructor <;> simp [step, rxByte, hq, hc, hr, hd, hp]
      · rw [hr] at hc
        have hlt : s.rxCount + 1 ≠ DATA_SIZE := by omega
        constructor <;> simp [step, rxByte, hq, hc, hr, hd, hlt, hp]
  | rxError =>
    constructor
    · intro r hr
      exact h.sizes r (List.mem_of_mem_tail hr)
    · have := h.single
      simp only [step, rxError, List.length_tail]
      omega
    · intro hb
      obtain ⟨hf, hd⟩ := h.ready hb
      simp only [step, rxError]
      exact ⟨by rw [hf]; rfl, hd⟩
    · intro hb
      exact h.waiting hb
    · exact h.armed
  | txDone => exact ⟨h.sizes, h.single, h.ready, h.waiting, h.armed⟩

theorem incInv_run (mem0 : List (List Nat)) (out0 : Nat) (es : List Event) :
    IncInv (mainRun CountPolicy.incremental mem0 out0 es) :=
  run_induction _ IncInv _ (incInv_start mem0 out0)
    (fun t e ht => incInv_step t e ht) es

theorem queueInv_start (mem0 : List (List Nat)) (out0 : Nat) :
    QueueInv (mainStart CountPolicy.atCompletion mem0 out0) := by
  constructor <;>
    simp [mainStart, USART_Init, Usart_Init, Usart_SetEnable, Usart_ReceiveData]

theorem queueInv_stmt (s : State) (h : QueueInv s) :
    QueueInv (mainStep CountPolicy.atCompletion s) := by
  obtain ⟨hs, h1, ha⟩ := h
  cases hpc : s.pc with
  | test =>
    by_cases hb : s.bytesReceived = DATA_SIZE
    · have ht : mainStep CountPolicy.atCompletion s = { s with pc := Pc.rearm } := by
        simp [mainStep, hpc, hb]
      rw [ht]
      exact ⟨hs, h1, fun _ => hb⟩
    · have ht : mainStep CountPolicy.atCompletion s = s := by
        simp [mainStep, hpc, hb]
      rw [ht]
      exact ⟨hs, h1, ha⟩
  | rearm =>
    have hb := ha hpc
    constructor
    · intro r hr
      simp [mainStep, hpc, Usart_ReceiveData] at hr
      rcases hr with hr | hr
      · exact hs r hr
      · rw [hr]
    · intro hne
      simp [mainStep, hpc, Usart_ReceiveData, hb] at hne
    · simp [mainStep, hpc]
  | copy =>
    have ht : mainStep CountPolicy.atCompletion s =
        { s with output_buf_number := s.input_buf_number, pc := Pc.toggle } := by
      simp [mainStep, hpc]
    rw [ht]
    exact ⟨hs, h1, by simp⟩
  | toggle =>
    have ht : mainStep CountPolicy.atCompletion s =
        { s with input_buf_number := (s.input_buf_number ^^^ 1) % 256,
                 pc := Pc.send } := by
      simp [mainStep, hpc]
    rw [ht]
    exact ⟨hs, h1, by simp⟩
  | send =>
    constructor
    · simpa [mainStep, hpc, Usart_SendData] using hs
    · simpa [mainStep, hpc, Usart_SendData] using h1
    · simp [mainStep, hpc]

theorem queueInv_step (s : State) (e : Event) (h : QueueInv s) :
    QueueInv (step CountPolicy.atCompletion s e) := by
  cases e with
  | stmt => exact queueInv_stmt s h
  | rxByte b =>
    cases hq : s.filling with
    | nil =>
      have : rxByte CountPolicy.atCompletion s b = s := by simp [rxByte, hq]
      simpa [step, this] using h
    | cons r rest =>
      have hr : r.size = DATA_SIZE := h.sizes r (by rw [hq]; simp)
      have hs : ∀ x ∈ rest, x.size = DATA_SIZE := fun x hx =>
        h.sizes x (by rw [hq]; exact List.mem_cons_of_mem _ hx)
      by_cases hc : r.size ≤ s.rxCount + 1
      · constructor
        · simpa [step, rxByte, hq, hc] using hs
        · rw [hr] at hc
          simp [step, rxByte, hq, hc, hr]
        · rw [hr] at hc
          simp [step, rxByte, hq, hc, hr]
      · constructor
        · have := h.sizes
          rw [hq] at this
          simpa [step, rxByte, hq, hc] using this
        · have := h.single
          rw [hq] at this
          simpa [step, rxByte, hq, hc] using this
        · simpa [step, rxByte, hq, hc] using h.armed
  | rxError =>
    constructor
    · intro r hr
      exact h.sizes r (List.mem_of_mem_tail hr)
    · intro hb
      have := h.single hb
      simp only [step, rxError, List.length_tail]
      omega
    · exact h.armed
  | txDone => exact ⟨h.sizes, h.single, h.armed⟩

theorem queueInv_run (pol : CountPolicy) (mem0 : List (List Nat)) (out0 : Nat)
    (es : List Event) : QueueInv (mainRun pol mem0 out0 es) := by
  cases pol with
  | atCompletion =>
    exact run_induction _ QueueInv _ (queueInv_start mem0 out0)
      (fun t e ht => queueInv_step t e ht) es
  | incremental =>
    have h := incInv_run mem0 out0 es
    exact ⟨h.sizes, fun _ => h.single, h.armed⟩

/-! ## A hand-off runs to its end -/

theorem holds128_hw (pol : CountPolicy) (s : State) (e : Event)
    (he : e ≠ Event.stmt) (h : Holds128 pol s) : Holds128 pol (step pol s e) := by
  obtain ⟨hf, hs, hi⟩ := h
  cases e with
  | stmt => exact absurd rfl he
  | rxByte b =>
    cases hq : s.filling with
    | nil =>
      have : rxByte pol s b = s := by simp [rxByte, hq]
      simpa [step, this] using (Holds128.mk hf hs hi)
    | cons r rest =>
      have hpol : pol = CountPolicy.atCompletion := by
        cases pol with
        | atCompletion => rfl
        | incremental =>
          have := hi rfl
          rw [hq] at this
          simp at this
      subst hpol
      have hr : r.size = DATA_SIZE := hs r (by rw [hq]; simp)
      have hrest : ∀ x ∈ rest, x.size = DATA_SIZE := fun x hx =>
        hs x (by rw [hq]; exact List.mem_cons_of_mem _ hx)
      by_cases hc : r.size ≤ s.rxCount + 1
      · constructor
        · rw [hr] at hc
          simp [step, rxByte, hq, hc, hr]
        · simpa [step, rxByte, hq, hc] using hrest
        · intro hp
          cases hp
      · constructor
        · simpa [step, rxByte, hq, hc] using hf
        · rw [hq] at hs
          simpa [step, rxByte, hq, hc] using hs
        · intro hp
          cases hp
  | rxError =>
    constructor
    · exact hf
    · intro r hr
      exact hs r (List.mem_of_mem_tail hr)
    · intro hp
      simp only [step, rxError]
      rw [hi hp]
      rfl
  | txDone => exact ⟨hf, hs, hi⟩

theorem pendingCalls_congr (s t : State) (hpc : t.pc = s.pc)
    (hi : t.input_buf_number = s.input_buf_number)
    (ho : t.output_buf_number = s.output_buf_number) :
    pendingCalls t = pendingCalls s := by
  unfold pendingCalls
  rw [hpc, hi, ho]

theorem stmtCount_hw (e : Event) (es : List Event) (he : e ≠ Event.stmt) :
    stmtCount (e :: es) = stmtCount es := by
  cases e with
  | stmt => exact absurd rfl he
  | rxByte b => rfl
  | rxError => rfl
  | txDone => rfl

/-- From any statement of a hand-off, and from the test when the count is
held at `DATA_SIZE`, the statements that are left make exactly the calls of
`pendingCalls`, whatever the hardware does in between. -/
theorem finish (pol : CountPolicy) (es : List Event) (s : State)
    (hold : s.pc = Pc.test ∨ s.pc = Pc.rearm → Holds128 pol s)
    (hn : stmtCount es = remaining s.pc) :
    (run pol s es).trace = s.trace ++ pendingCalls s := by
  induction es generalizing s with
  | nil =>
    cases hpc : s.pc <;> rw [hpc] at hn <;> simp [stmtCount, remaining] at hn
  | cons e es ih =>
    by_cases he : e = Event.stmt
    · subst he
      rw [run_cons]
      simp only [stmtCount] at hn
      cases hpc : s.pc with
      | test =>
        have hh := hold (Or.inl hpc)
        have ht : step pol s Event.stmt = { s with pc := Pc.rearm } := by
          simp [step, mainStep, hpc, hh.full]
        rw [hpc] at hn
        have key := ih { s with pc := Pc.rearm }
          (fun _ => ⟨hh.full, hh.sizes, hh.idle⟩) (by simpa [remaining] using hn)
        rw [ht, key]
        simp [pendingCalls, hpc]
      | rearm =>
        rw [hpc] at hn
        have key := ih (step pol s Event.stmt) (by simp [step, mainStep, hpc])
          (by simpa [step, mainStep, hpc, remaining] using hn)
        rw [key]
        simp [step, mainStep, pendingCalls, hpc, Usart_ReceiveData]
      | copy =>
        rw [hpc] at hn
        have key := ih (step pol s Event.stmt) (by simp [step, mainStep, hpc])
          (by simpa [step, mainStep, hpc, remaining] using hn)
        rw [key]
        simp [step, mainStep, pendingCalls, hpc]
      | toggle =>
        rw [hpc] at hn
        have key := ih (step pol s Event.stmt) (by simp [step, mainStep, hpc])
          (by simpa [step, mainStep, hpc, remaining] using hn)
        rw [key]
        simp [step, mainStep, pendingCalls, hpc]
      | send =>
        rw [hpc] at hn
        rw [run_hw_trace pol es _ (by simpa [remaining] using hn)]
        simp [step, mainStep, pendingCalls, hpc, Usart_SendData]
    · obtain ⟨h1, h2, h3, h4⟩ := hw_frame pol s e he
      rw [run_cons, ih (step pol s e)
        (fun hp => holds128_hw pol s e he (hold (by rw [← h2]; exact hp)))
        (by rw [h2, ← hn, stmtCount_hw e es he]),
        h1, pendingCalls_congr s _ h2 h3 h4]

/-! ## After an error -/

theorem dead_step (pol : CountPolicy) (s : State) (e : Event) (h : Dead s) :
    Dead (step pol s e) ∧
    recvCalls (step pol s e).trace = recvCalls s.trace ∧
    (sendCalls (step pol s e).trace).length +
        (if (step pol s e).pc = Pc.test then 0 else 1) =
      (sendCalls s.trace).length + (if s.pc = Pc.test then 0 else 1) ∧
    (s.pc = Pc.test →
      (step pol s e).trace = s.trace ∧ (step pol s e).pc = Pc.test) ∧
    (step pol s e).trace ++ owedCalls (step pol s e) = s.trace ++ owedCalls s := by
  obtain ⟨hf, hb, hp⟩ := h
  cases e with
  | stmt =>
    cases hpc : s.pc with
    | test =>
      have ht : step pol s Event.stmt = s := by simp [step, mainStep, hpc, hb]
      rw [ht]
      exact ⟨⟨hf, hb, hp⟩, rfl, by simp [hpc], fun _ => ⟨rfl, hpc⟩, rfl⟩
    | rearm => exact absurd hpc hp
    | copy =>
      refine ⟨⟨?_, ?_, ?_⟩, ?_, ?_, ?_, ?_⟩ <;>
        simp [step, mainStep, hpc, hf, hb, owedCalls]
    | toggle =>
      refine ⟨⟨?_, ?_, ?_⟩, ?_, ?_, ?_, ?_⟩ <;>
        simp [step, mainStep, hpc, hf, hb, owedCalls]
    | send =>
      refine ⟨⟨?_, ?_, ?_⟩, ?_, ?_, ?_, ?_⟩ <;>
        simp [step, mainStep, hpc, hf, hb, Usart_SendData, recvCalls_append,
          sendCalls_append, recvCalls, sendCalls, owedCalls]
  | rxByte b =>
    have ht : step pol s (Event.rxByte b) = s := by simp [step, rxByte, hf]
    rw [ht]
    exact ⟨⟨hf, hb, hp⟩, rfl, rfl, fun h => ⟨rfl, h⟩, rfl⟩
  | rxError =>
    exact ⟨⟨by simp [step, rxError, hf], hb, hp⟩, rfl, rfl, fun h => ⟨rfl, h⟩, rfl⟩
  | txDone => exact ⟨⟨hf, hb, hp⟩, rfl, rfl, fun h => ⟨rfl, h⟩, rfl⟩

/-- Once no receive is outstanding and the count is not `DATA_SIZE`, no
receive call is ever added, at most the send of a hand-off in progress is, and
nothing at all if `main` stands at the test. -/
theorem dead_run (pol : CountPolicy) (es : List Event) (s : State) (h : Dead s) :
    recvCalls (run pol s es).trace = recvCalls s.trace ∧
    (sendCalls (run pol s es).trace).length +
        (if (run pol s es).pc = Pc.test then 0 else 1) =
      (sendCalls s.trace).length + (if s.pc = Pc.test then 0 else 1) ∧
    (s.pc = Pc.test → (run pol s es).trace = s.trace) ∧
    (run pol s es).trace ++ owedCalls (run pol s es) = s.trace ++ owedCalls s := by
  induction es generalizing s with
  | nil => exact ⟨rfl, rfl, fun _ => rfl, rfl⟩
  | cons e es ih =>
    obtain ⟨hd, h1, h2, h3, h6⟩ := dead_step pol s e h
    obtain ⟨k1, k2, k3, k4⟩ := ih (step pol s e) hd
    rw [run_cons]
    refine ⟨k1.trans h1, k2.trans h2, fun hp => ?_, k4.trans h6⟩
    obtain ⟨h4, h5⟩ := h3 hp
    exact (k3 h5).trans h4

/-- What is owed is nothing or one send on USART2 of `DATA_SIZE` bytes. -/
theorem owedCalls_cases (s : State) :
    owedCalls s = [] ∨
      ∃ d, owedCalls s = [Call.Usart_SendData USART_HDL.USART2 d DATA_SIZE] := by
  unfold owedCalls
  cases s.pc
  · exact Or.inl rfl
  · exact Or.inl rfl
  · exact Or.inr ⟨_, rfl⟩
  · exact Or.inr ⟨_, rfl⟩
  · exact Or.inr ⟨_, rfl⟩

/-- Two traces that agree once what is owed is added differ by at most the
owed send. -/
theorem owed_split (t u : List Call) (s1 s2 : State)
    (h : t ++ owedCalls s1 = u ++ owedCalls s2) :
    t = u ∨ (∃ d, t = u ++ [Call.Usart_SendData USART_HDL.USART2 d DATA_SIZE]) ∨
      (∃ d, u = t ++ [Call.Usart_SendData USART_HDL.USART2 d DATA_SIZE]) := by
  rcases owedCalls_cases s1 with h1 | ⟨d1, h1⟩ <;>
    rcases owedCalls_cases s2 with h2 | ⟨d2, h2⟩ <;> rw [h1, h2] at h
  · left
    simpa using h
  · right; left
    exact ⟨d2, by simpa using h⟩
  · right; right
    exact ⟨d1, by simpa using h.symm⟩
  · left
    exact List.append_inj_left' h rfl

theorem mem_recvCalls (tr : List Call) (h : USART_HDL) (d n : Nat) :
    Call.Usart_ReceiveData h d n ∈ tr ↔ (h, d, n) ∈ recvCalls tr := by
  induction tr with
  | nil => simp [recvCalls]
  | cons c tr ih => cases c <;> simp [recvCalls, ih]

theorem mem_sendCalls (tr : List Call) (h : USART_HDL) (d n : Nat) :
    Call.Usart_SendData h d n ∈ tr ↔ (h, d, n) ∈ sendCalls tr := by
  induction tr with
  | nil => simp [sendCalls]
  | cons c tr ih => cases c <;> simp [sendCalls, ih]

/-- In a chain of `SendAfterRecv` that does not start with a send, whatever
stands before a send ends with a receive. -/
theorem recv_before_send (tr pre post : List Call) (h : USART_HDL) (d n : Nat)
    (hchain : List.Chain' SendAfterRecv tr)
    (hfirst : tr.head? = some Call.Platform_Specified_Init)
    (hsplit : tr = pre ++ Call.Usart_SendData h d n :: post) :
    ∃ pre1 h1 d1 n1, pre = pre1 ++ [Call.Usart_ReceiveData h1 d1 n1] := by
  rcases List.eq_nil_or_concat pre with hp | ⟨pre1, x, hp⟩
  · subst hp
    rw [hsplit] at hfirst
    simp at hfirst
  · subst hp
    have hin : [x, Call.Usart_SendData h d n] <:+: tr :=
      ⟨pre1, post, by rw [hsplit]; simp⟩
    have hx : SendAfterRecv x (Call.Usart_SendData h d n) := by
      have := hchain.infix hin
      simpa using this
    have hrecv : isRecv x = true := hx rfl
    cases x with
    | Usart_ReceiveData h1 d1 n1 =>
      exact ⟨pre1, h1, d1, n1, List.concat_eq_append _ _⟩
    | Platform_Specified_Init => simp [isRecv] at hrecv
    | GPIO_Init => simp [isRecv] at hrecv
    | Usart_Init a b => simp [isRecv] at hrecv
    | Usart_SetEnable a => simp [isRecv] at hrecv
    | Usart_SendData a b c => simp [isRecv] at hrecv

/-- In a reachable state the count at `DATA_SIZE` stays there until the
re-arm. -/
theorem holds128_run (pol : CountPolicy) (mem0 : List (List Nat)) (out0 : Nat)
    (es : List Event)
    (hb : (mainRun pol mem0 out0 es).bytesReceived = DATA_SIZE) :
    Holds128 pol (mainRun pol mem0 out0 es) := by
  refine ⟨hb, (queueInv_run pol mem0 out0 es).sizes, fun hp => ?_⟩
  subst hp
  exact ((incInv_run mem0 out0 es).ready hb).1

/-- A statement of `main` other than the re-arm leaves the count alone. -/
theorem mainStep_bytesReceived (pol : CountPolicy) (s : State)
    (hp : s.pc ≠ Pc.rearm) :
    (mainStep pol s).bytesReceived = s.bytesReceived := by
  cases hpc : s.pc with
  | test => by_cases hb : s.bytesReceived = DATA_SIZE <;> simp [mainStep, hpc, hb]
  | rearm => exact absurd hpc hp
  | copy => simp [mainStep, hpc]
  | toggle => simp [mainStep, hpc]
  | send => simp [mainStep, hpc, Usart_SendData]

/-- In a reachable state a count of `DATA_SIZE` stays until `main` re-arms. -/
theorem full_stays (pol : CountPolicy) (mem0 : List (List Nat)) (out0 : Nat)
    (pre : List Event) (e : Event)
    (hb : (mainRun pol mem0 out0 pre).bytesReceived = DATA_SIZE)
    (he : e ≠ Event.stmt ∨ (mainRun pol mem0 out0 pre).pc ≠ Pc.rearm) :
    (mainRun pol mem0 out0 (pre ++ [e])).bytesReceived = DATA_SIZE := by
  have hrun : mainRun pol mem0 out0 (pre ++ [e]) =
      step pol (mainRun pol mem0 out0 pre) e := by
    simp [mainRun, run, List.foldl_append]
  rw [hrun]
  by_cases hs : e = Event.stmt
  · subst hs
    rcases he with he | he
    · exact absurd rfl he
    · show (mainStep pol _).bytesReceived = _
      rw [mainStep_bytesReceived pol _ he]
      exact hb
  · exact (holds128_hw pol _ e hs (holds128_run pol mem0 out0 pre hb)).full

/-- Whatever the hardware does in between, five statements of `main` from
a test that reads `DATA_SIZE` add to the trace the re-arm and then the send,
both with the index `input_buf_number` had at the test, and nothing else. -/
theorem handoff_calls (pol : CountPolicy) (mem0 : List (List Nat)) (out0 : Nat)
    (pre es : List Event)
    (hpc : (mainRun pol mem0 out0 pre).pc = Pc.test)
    (hb : (mainRun pol mem0 out0 pre).bytesReceived = DATA_SIZE)
    (hn : stmtCount es = 5) :
    (mainRun pol mem0 out0 (pre ++ es)).trace =
      (mainRun pol mem0 out0 pre).trace ++
        [Call.Usart_ReceiveData USART_HDL.USART1
           (mainRun pol mem0 out0 pre).input_buf_number DATA_SIZE,
         Call.Usart_SendData USART_HDL.USART2
           (mainRun pol mem0 out0 pre).input_buf_number DATA_SIZE] := by
  rw [mainRun_append, finish pol es _ (fun _ => holds128_run pol mem0 out0 pre hb)
    (by rw [hpc]; exact hn)]
  simp [pendingCalls, hpc]

theorem sends_account_step (pol : CountPolicy) (s : State) (e : Event) :
    (sendCalls (step pol s e).trace).length +
        (if (step pol s e).pc = Pc.test then 0 else 1) =
      (sendCalls s.trace).length + (if s.pc = Pc.test then 0 else 1) +
        (if e = Event.stmt ∧ s.pc = Pc.test ∧ s.bytesReceived = DATA_SIZE
          then 1 else 0) := by
  by_cases he : e = Event.stmt
  · subst he
    cases hpc : s.pc with
    | test =>
      by_cases hb : s.bytesReceived = DATA_SIZE
      · simp [step, mainStep, hpc, hb]
      · simp [step, mainStep, hpc, hb]
    | rearm =>
      simp [step, mainStep, hpc, Usart_ReceiveData, sendCalls_append, sendCalls]
    | copy => simp [step, mainStep, hpc]
    | toggle => simp [step, mainStep, hpc]
    | send =>
      simp [step, mainStep, hpc, Usart_SendData, sendCalls_append, sendCalls]
  · obtain ⟨h1, h2, _, _⟩ := hw_frame pol s e he
    rw [h1, h2]
    simp [he]

/-- Every send, made or due, answers one test that read `DATA_SIZE`. -/
theorem sends_account (pol : CountPolicy) (es : List Event) (s : State) :
    (sendCalls (run pol s es).trace).length +
        (if (run pol s es).pc = Pc.test then 0 else 1) =
      (sendCalls s.trace).length + (if s.pc = Pc.test then 0 else 1) +
        testsPassed pol s es := by
  induction es generalizing s with
  | nil => simp [run, testsPassed]
  | cons e es ih =>
    rw [run_cons, ih (step pol s e), sends_account_step pol s e]
    simp only [testsPassed]
    omega

/-! ## The claims -/

set_option maxRecDepth 100000

/-- C1, evaluated on a run that delivers one full block and then runs one
iteration: the receive calls so far target buffer 0 (start-up, the block that
was just filled) and buffer 1 (the re-arm), and the first `Usart_SendData`
targets buffer 1, the buffer of the re-armed receive, not buffer 0. -/
theorem C1_first_send_targets_rearmed_buffer :
    recvCalls (mainRun CountPolicy.incremental zeroMem 0
        (feed blockA ++ iteration)).trace =
      [(USART_HDL.USART1, 0, DATA_SIZE), (USART_HDL.USART1, 1, DATA_SIZE)] ∧
    sendCalls (mainRun CountPolicy.incremental zeroMem 0
        (feed blockA ++ iteration)).trace =
      [(USART_HDL.USART2, 1, DATA_SIZE)] := by
  decide

/-- C2, evaluated right after the first hand-off: buffer 1 is the target of
the outstanding receive and of the outstanding send, so it is filling and
draining at the same time. -/
theorem C2_buffer_one_filling_and_draining :
    (mainRun CountPolicy.incremental zeroMem 0
        (feed blockA ++ iteration)).filling = [Req.mk 1 DATA_SIZE] ∧
    (mainRun CountPolicy.incremental zeroMem 0
        (feed blockA ++ iteration)).draining = [Req.mk 1 DATA_SIZE] := by
  decide

/-- C3, evaluated on the scenario of the spec (`0x00..0x7F`, hand-off,
`0x80..0xFF`, hand-off) with zeroed buffers: the first send hands over the
128 bytes buffer 1 held before anything was received into it, the second send
hands over `0x00..0x7F`; the stream is not the two blocks in order. -/
theorem C3_sent_stream_differs_from_received :
    (mainRun CountPolicy.incremental zeroMem 0
        (feed blockA ++ iteration ++ feed blockB ++ iteration)).txLog =
      [List.replicate 128 0, blockA] ∧
    (mainRun CountPolicy.incremental zeroMem 0
        (feed blockA ++ iteration ++ feed blockB ++ iteration)).txLog.flatten ≠
      blockA ++ blockB := by
  decide

/-- C4 as stated fails: on the run in which the second receive, re-armed by
the first hand-off, ends with an error after 64 bytes, no continuation of the
run contains a third `Usart_ReceiveData` call; the relay does not re-arm. -/
theorem C4_no_rearm_after_error :
    ¬ ∃ post : List Event,
      2 < (recvCalls (mainRun CountPolicy.incremental zeroMem 0
        ((feed blockA ++ iteration ++ feed (blockB.take 64)) ++
          Event.rxError :: post)).trace).length := by
  rintro ⟨post, hpost⟩
  have hrun : mainRun CountPolicy.incremental zeroMem 0
      ((feed blockA ++ iteration ++ feed (blockB.take 64)) ++
        Event.rxError :: post) =
      run CountPolicy.incremental
        (mainRun CountPolicy.incremental zeroMem 0
          ((feed blockA ++ iteration ++ feed (blockB.take 64)) ++
            [Event.rxError])) post := by
    simp [mainRun, run, List.foldl_append]
  have hdead := dead_run CountPolicy.incremental post
    (mainRun CountPolicy.incremental zeroMem 0
      ((feed blockA ++ iteration ++ feed (blockB.take 64)) ++ [Event.rxError]))
    ⟨by decide, by decide, by decide⟩
  rw [hrun, hdead.1] at hpost
  revert hpost
  decide

/-- C4 (amended): when a receive ends with an error while `bytesReceived` is
not `DATA_SIZE`, then whatever happens afterwards, and wherever `main` stands
in its loop, no `Usart_ReceiveData` call is ever added to the trace; the trace
stays as it is or gains one `Usart_SendData` call on USART2 and nothing else;
and if `main` stands at the test of line 89 when the error arrives the trace
stays as it is. -/
theorem C4_error_stops_rearm (pol : CountPolicy) (mem0 : List (List Nat))
    (out0 : Nat) (pre post : List Event)
    (hcount : (mainRun pol mem0 out0 pre).bytesReceived ≠ DATA_SIZE) :
    recvCalls (mainRun pol mem0 out0 (pre ++ Event.rxError :: post)).trace =
      recvCalls (mainRun pol mem0 out0 pre).trace ∧
    (sendCalls (mainRun pol mem0 out0 (pre ++ Event.rxError :: post)).trace).length ≤
      (sendCalls (mainRun pol mem0 out0 pre).trace).length + 1 ∧
    ((mainRun pol mem0 out0 (pre ++ Event.rxError :: post)).trace =
        (mainRun pol mem0 out0 pre).trace ∨
      ∃ d, (mainRun pol mem0 out0 (pre ++ Event.rxError :: post)).trace =
        (mainRun pol mem0 out0 pre).trace ++
          [Call.Usart_SendData USART_HDL.USART2 d DATA_SIZE]) ∧
    ((mainRun pol mem0 out0 pre).pc = Pc.test →
      (mainRun pol mem0 out0 (pre ++ Event.rxError :: post)).trace =
        (mainRun pol mem0 out0 pre).trace) := by
  have hq := queueInv_run pol mem0 out0 pre
  have hlen := hq.single hcount
  have hrun : mainRun pol mem0 out0 (pre ++ Event.rxError :: post) =
      run pol (rxError (mainRun pol mem0 out0 pre)) post := by
    simp [mainRun, run, List.foldl_append, step]
  have hf : (rxError (mainRun pol mem0 out0 pre)).filling = [] := by
    simp only [rxError]
    apply List.eq_nil_of_length_eq_zero
    rw [List.length_tail]
    omega
  have hd : Dead (rxError (mainRun pol mem0 out0 pre)) :=
    ⟨hf, hcount, fun hp => hcount (hq.armed hp)⟩
  obtain ⟨k1, k2, k3, k4⟩ := dead_run pol post _ hd
  rw [hrun]
  have hsends : (sendCalls (run pol (rxError (mainRun pol mem0 out0 pre)) post).trace).length
      ≤ (sendCalls (mainRun pol mem0 out0 pre).trace).length + 1 := ?_
  · refine ⟨k1, hsends, ?_, k3⟩
    rcases owed_split _ _ _ _ k4 with h | ⟨d, h⟩ | ⟨d, h⟩
    · exact Or.inl h
    · exact Or.inr ⟨d, h⟩
    · exfalso
      have hlen := congrArg (fun l => (sendCalls l).length) h
      simp only [sendCalls_append, List.length_append] at hlen
      have hpc : (rxError (mainRun pol mem0 out0 pre)).pc ≠ Pc.test := by
        intro hp
        have := k3 hp
        rw [this] at h
        simpa using congrArg List.length h
      simp [sendCalls] at hlen
      have hmono := k2
      rw [if_neg hpc] at hmono
      split at hmono <;> omega
  have hle : (sendCalls (run pol (rxError (mainRun pol mem0 out0 pre)) post).trace).length
      ≤ (sendCalls (rxError (mainRun pol mem0 out0 pre)).trace).length +
        (if (rxError (mainRun pol mem0 out0 pre)).pc = Pc.test then 0 else 1) := by
    rw [← k2]
    exact Nat.le_add_right _ _
  refine le_trans hle ?_
  show (sendCalls (mainRun pol mem0 out0 pre).trace).length + _ ≤ _
  split <;> omega

/-- C4 applied to a concrete run: the error arrives after the first block,
between the re-arm of line 90 and the send of line 94; the count reads 0, the
remaining three statements add one send, and no receive call is added. -/
theorem C4_error_stops_rearm_witness :
    (mainRun CountPolicy.incremental zeroMem 0
        (feed blockA ++ [Event.stmt, Event.stmt])).bytesReceived ≠ DATA_SIZE ∧
    recvCalls (mainRun CountPolicy.incremental zeroMem 0
        ((feed blockA ++ [Event.stmt, Event.stmt]) ++
          Event.rxError :: [Event.stmt, Event.stmt, Event.stmt])).trace =
      recvCalls (mainRun CountPolicy.incremental zeroMem 0
        (feed blockA ++ [Event.stmt, Event.stmt])).trace ∧
    (sendCalls (mainRun CountPolicy.incremental zeroMem 0
        ((feed blockA ++ [Event.stmt, Event.stmt]) ++
          Event.rxError :: [Event.stmt, Event.stmt, Event.stmt])).trace).length ≤
      (sendCalls (mainRun CountPolicy.incremental zeroMem 0
        (feed blockA ++ [Event.stmt, Event.stmt])).trace).length + 1 :=
  ⟨by decide,
   (C4_error_stops_rearm CountPolicy.incremental zeroMem 0
     (feed blockA ++ [Event.stmt, Event.stmt])
     [Event.stmt, Event.stmt, Event.stmt] (by decide)).1,
   (C4_error_stops_rearm CountPolicy.incremental zeroMem 0
     (feed blockA ++ [Event.stmt, Event.stmt])
     [Event.stmt, Event.stmt, Event.stmt] (by decide)).2.1⟩

/-- C5 as stated fails under the at-completion policy: after one completed
block, two iterations in a row make two hand-offs (two sends, three receives in
all), and the second re-arm is requested while the first is outstanding. -/
theorem C5_repeated_handoff_at_completion :
    (mainRun CountPolicy.atCompletion zeroMem 0
        (feed blockA ++ iteration ++ iteration)).rxDone = 1 ∧
    sendCalls (mainRun CountPolicy.atCompletion zeroMem 0
        (feed blockA ++ iteration ++ iteration)).trace =
      [(USART_HDL.USART2, 1, DATA_SIZE), (USART_HDL.USART2, 0, DATA_SIZE)] ∧
    recvCalls (mainRun CountPolicy.atCompletion zeroMem 0
        (feed blockA ++ iteration ++ iteration)).trace =
      [(USART_HDL.USART1, 0, DATA_SIZE), (USART_HDL.USART1, 1, DATA_SIZE),
       (USART_HDL.USART1, 0, DATA_SIZE)] ∧
    (mainRun CountPolicy.atCompletion zeroMem 0
        (feed blockA ++ iteration ++ iteration)).filling =
      [Req.mk 1 DATA_SIZE, Req.mk 0 DATA_SIZE] := by
  decide

/-- C5 (amended): under the incremental policy, where `Usart_ReceiveData`
restarts the count, in every run: at most one receive is outstanding and none
when `main` stands before the re-arm; the receive calls are the completed
receives or one more; every re-arm has had its send, but the one in flight; a
completed block that has not been re-armed shows as
`bytesReceived = DATA_SIZE`, and stays so until `main` re-arms; and from a
test that reads `DATA_SIZE` the next five statements of `main`, whatever the
hardware does in between, add exactly one `Usart_ReceiveData` and one
`Usart_SendData` to the trace. -/
theorem C5_one_handoff_per_block_incremental (mem0 : List (List Nat))
    (out0 : Nat) (pre : List Event) :
    (mainRun CountPolicy.incremental mem0 out0 pre).filling.length ≤ 1 ∧
    ((mainRun CountPolicy.incremental mem0 out0 pre).pc = Pc.rearm →
      (mainRun CountPolicy.incremental mem0 out0 pre).filling = []) ∧
    (mainRun CountPolicy.incremental mem0 out0 pre).rxDone ≤
      (recvCalls (mainRun CountPolicy.incremental mem0 out0 pre).trace).length ∧
    (recvCalls (mainRun CountPolicy.incremental mem0 out0 pre).trace).length ≤
      (mainRun CountPolicy.incremental mem0 out0 pre).rxDone + 1 ∧
    (recvCalls (mainRun CountPolicy.incremental mem0 out0 pre).trace).length =
      (sendCalls (mainRun CountPolicy.incremental mem0 out0 pre).trace).length + 1 +
        (if inFlight (mainRun CountPolicy.incremental mem0 out0 pre).pc = true
          then 1 else 0) ∧
    ((mainRun CountPolicy.incremental mem0 out0 pre).rxDone =
        (recvCalls (mainRun CountPolicy.incremental mem0 out0 pre).trace).length ↔
      (mainRun CountPolicy.incremental mem0 out0 pre).bytesReceived = DATA_SIZE) ∧
    (∀ e : Event,
      (mainRun CountPolicy.incremental mem0 out0 pre).bytesReceived = DATA_SIZE →
      e ≠ Event.stmt ∨ (mainRun CountPolicy.incremental mem0 out0 pre).pc ≠ Pc.rearm →
      (mainRun CountPolicy.incremental mem0 out0 (pre ++ [e])).bytesReceived =
        DATA_SIZE) ∧
    (∀ es : List Event,
      (mainRun CountPolicy.incremental mem0 out0 pre).pc = Pc.test →
      (mainRun CountPolicy.incremental mem0 out0 pre).bytesReceived = DATA_SIZE →
      stmtCount es = 5 →
      (mainRun CountPolicy.incremental mem0 out0 (pre ++ es)).trace =
        (mainRun CountPolicy.incremental mem0 out0 pre).trace ++
          [Call.Usart_ReceiveData USART_HDL.USART1
             (mainRun CountPolicy.incremental mem0 out0 pre).input_buf_number
             DATA_SIZE,
           Call.Usart_SendData USART_HDL.USART2
             (mainRun CountPolicy.incremental mem0 out0 pre).input_buf_number
             DATA_SIZE]) := by
  have hi := incInv_run mem0 out0 pre
  have ht := traceInv_run CountPolicy.incremental mem0 out0 pre
  refine ⟨hi.single, fun hp => (hi.ready (hi.armed hp)).1, ?_, ?_, ht.count, ?_,
    fun e hb he => full_stays _ mem0 out0 pre e hb he,
    fun es hpc hb hn => handoff_calls _ mem0 out0 pre es hpc hb hn⟩
  · by_cases hb : (mainRun CountPolicy.incremental mem0 out0 pre).bytesReceived = DATA_SIZE
    · rw [(hi.ready hb).2]
    · have := hi.waiting hb
      omega
  · by_cases hb : (mainRun CountPolicy.incremental mem0 out0 pre).bytesReceived = DATA_SIZE
    · rw [(hi.ready hb).2]
      omega
    · have := hi.waiting hb
      omega
  · constructor
    · intro hd
      by_contra hb
      have := hi.waiting hb
      omega
    · intro hb
      exact (hi.ready hb).2

/-- C5 applied to a concrete run: one full block, then five statements of
`main` with a byte of the next block arriving between the re-arm and the
send. -/
theorem C5_one_handoff_per_block_incremental_witness :
    (mainRun CountPolicy.incremental zeroMem 0 (feed blockA)).pc = Pc.test ∧
    (mainRun CountPolicy.incremental zeroMem 0 (feed blockA)).bytesReceived =
      DATA_SIZE ∧
    stmtCount [Event.stmt, Event.stmt, Event.rxByte 128, Event.stmt, Event.stmt,
      Event.stmt] = 5 ∧
    (mainRun CountPolicy.incremental zeroMem 0
        (feed blockA ++ [Event.stmt, Event.stmt, Event.rxByte 128, Event.stmt,
          Event.stmt, Event.stmt])).trace =
      (mainRun CountPolicy.incremental zeroMem 0 (feed blockA)).trace ++
        [Call.Usart_ReceiveData USART_HDL.USART1
           (mainRun CountPolicy.incremental zeroMem 0 (feed blockA)).input_buf_number
           DATA_SIZE,
         Call.Usart_SendData USART_HDL.USART2
           (mainRun CountPolicy.incremental zeroMem 0 (feed blockA)).input_buf_number
           DATA_SIZE] :=
  ⟨by decide, by decide, by decide,
   (C5_one_handoff_per_block_incremental zeroMem 0 (feed blockA)).2.2.2.2.2.2.2
     [Event.stmt, Event.stmt, Event.rxByte 128, Event.stmt, Event.stmt, Event.stmt]
     (by decide) (by decide) (by decide)⟩

/-- C6: an iteration that reads `bytesReceived == DATA_SIZE` appends the
`Usart_ReceiveData` call and then the `Usart_SendData` call, in that order; in
the trace of any run, whatever stands before a send ends with a receive call;
five statements in a row from the test are one such iteration; and with the
hardware acting between the statements the five statements of a hand-off
still add the receive call and then the send call. -/
theorem C6_rearm_precedes_send (pol : CountPolicy) (mem0 : List (List Nat))
    (out0 : Nat) (es : List Event) :
    (∀ s : State, s.bytesReceived = DATA_SIZE →
      (loopBody pol s).trace = s.trace ++
        [Call.Usart_ReceiveData USART_HDL.USART1 s.input_buf_number DATA_SIZE,
         Call.Usart_SendData USART_HDL.USART2 s.input_buf_number DATA_SIZE]) ∧
    (∀ (pre post : List Call) (h : USART_HDL) (d n : Nat),
      (mainRun pol mem0 out0 es).trace = pre ++ Call.Usart_SendData h d n :: post →
      ∃ pre1 h1 d1 n1, pre = pre1 ++ [Call.Usart_ReceiveData h1 d1 n1]) ∧
    (∀ s : State, s.pc = Pc.test → run pol s iteration = loopBody pol s) ∧
    (∀ more : List Event,
      (mainRun pol mem0 out0 es).pc = Pc.test →
      (mainRun pol mem0 out0 es).bytesReceived = DATA_SIZE →
      stmtCount more = 5 →
      (mainRun pol mem0 out0 (es ++ more)).trace =
        (mainRun pol mem0 out0 es).trace ++
          [Call.Usart_ReceiveData USART_HDL.USART1
             (mainRun pol mem0 out0 es).input_buf_number DATA_SIZE,
           Call.Usart_SendData USART_HDL.USART2
             (mainRun pol mem0 out0 es).input_buf_number DATA_SIZE]) := by
  refine ⟨fun s hb => loopBody_trace pol s hb, ?_,
    fun s hpc => iteration_eq_loopBody pol s hpc,
    fun more hpc hb hn => handoff_calls pol mem0 out0 es more hpc hb hn⟩
  intro pre post h d n hsplit
  have ht := traceInv_run pol mem0 out0 es
  exact recv_before_send _ pre post h d n ht.chain ht.first hsplit

/-- C6 applied to a concrete run: the first send, and what stands before
it. -/
theorem C6_rearm_precedes_send_witness :
    (mainRun CountPolicy.incremental zeroMem 0 (feed blockA ++ iteration)).trace =
      ((mainStart CountPolicy.incremental zeroMem 0).trace ++
        [Call.Usart_ReceiveData USART_HDL.USART1 1 DATA_SIZE]) ++
      Call.Usart_SendData USART_HDL.USART2 1 DATA_SIZE :: [] ∧
    ∃ pre1 h1 d1 n1,
      (mainStart CountPolicy.incremental zeroMem 0).trace ++
          [Call.Usart_ReceiveData USART_HDL.USART1 1 DATA_SIZE] =
        pre1 ++ [Call.Usart_ReceiveData h1 d1 n1] :=
  ⟨by decide,
   (C6_rearm_precedes_send CountPolicy.incremental zeroMem 0
      (feed blockA ++ iteration)).2.1
    ((mainStart CountPolicy.incremental zeroMem 0).trace ++
      [Call.Usart_ReceiveData USART_HDL.USART1 1 DATA_SIZE])
    [] USART_HDL.USART2 1 DATA_SIZE (by decide)⟩

/-- C7, evaluated on a run that delivers one full block and then runs one
iteration: the trace holds a `Usart_SendData` on USART2 and, before it,
`Usart_Init` for both channels but `Usart_SetEnable` for USART1 only; and no
run of `main` ever calls `Usart_SetEnable` on USART2. -/
theorem C7_usart2_sends_without_enable :
    (mainRun CountPolicy.incremental zeroMem 0 (feed blockA ++ iteration)).trace =
      [Call.Platform_Specified_Init, Call.GPIO_Init,
       Call.Usart_Init USART_HDL.USART1
         (USART_SETTINGS_STRUCT.mk 9600 USART_PARITY_NO USART_STOP_BIT_1 USART_RX),
       Call.Usart_Init USART_HDL.USART2
         (USART_SETTINGS_STRUCT.mk 115200 USART_PARITY_NO USART_STOP_BIT_1 USART_TX),
       Call.Usart_SetEnable USART_HDL.USART1,
       Call.Usart_ReceiveData USART_HDL.USART1 0 DATA_SIZE,
       Call.Usart_ReceiveData USART_HDL.USART1 1 DATA_SIZE,
       Call.Usart_SendData USART_HDL.USART2 1 DATA_SIZE] ∧
    (∀ (pol : CountPolicy) (mem0 : List (List Nat)) (out0 : Nat) (es : List Event),
      Call.Usart_SetEnable USART_HDL.USART2 ∉ (mainRun pol mem0 out0 es).trace) :=
  ⟨by decide, fun pol mem0 out0 es => (traceInv_run pol mem0 out0 es).noEnable2⟩

/-- C8: the start-up sequence arms the first receive into buffer 0 with size
`DATA_SIZE`; in every run the `k`-th `Usart_ReceiveData` call (from `k = 0`) is
on USART1, targets buffer `k mod 2` and asks for `DATA_SIZE` bytes; and every
buffer index passed to the driver, like `input_buf_number` itself, is 0 or
1. -/
theorem C8_receive_targets_alternate (pol : CountPolicy) (mem0 : List (List Nat))
    (out0 : Nat) (es : List Event) :
    recvCalls (mainStart pol mem0 out0).trace = [(USART_HDL.USART1, 0, DATA_SIZE)] ∧
    (recvCalls (mainRun pol mem0 out0 es).trace)[0]? =
      some (USART_HDL.USART1, 0, DATA_SIZE) ∧
    (∀ (k : Nat) (c : USART_HDL × Nat × Nat),
      (recvCalls (mainRun pol mem0 out0 es).trace)[k]? = some c →
      c = (USART_HDL.USART1, k % 2, DATA_SIZE)) ∧
    (∀ (h : USART_HDL) (d n : Nat),
      Call.Usart_ReceiveData h d n ∈ (mainRun pol mem0 out0 es).trace ∨
        Call.Usart_SendData h d n ∈ (mainRun pol mem0 out0 es).trace →
      d = 0 ∨ d = 1) ∧
    ((mainRun pol mem0 out0 es).input_buf_number = 0 ∨
      (mainRun pol mem0 out0 es).input_buf_number = 1) := by
  have ht := traceInv_run pol mem0 out0 es
  have hk : ∀ (k : Nat) (c : USART_HDL × Nat × Nat),
      (recvCalls (mainRun pol mem0 out0 es).trace)[k]? = some c →
      c = (USART_HDL.USART1, k % 2, DATA_SIZE) := by
    intro k c hc
    rw [ht.recv, List.getElem?_map] at hc
    by_cases hlt : k < (recvCalls (mainRun pol mem0 out0 es).trace).length
    · rw [List.getElem?_range hlt] at hc
      simpa using hc.symm
    · rw [List.getElem?_eq_none (by simpa using hlt)] at hc
      simp at hc
  have hpos : 0 < (recvCalls (mainRun pol mem0 out0 es).trace).length := by
    have := ht.count
    omega
  refine ⟨?_, ?_, hk, ?_, ?_⟩
  · simp [mainStart, USART_Init, Usart_Init, Usart_SetEnable, Usart_ReceiveData,
      recvCalls]
  · rw [ht.recv, List.getElem?_map, List.getElem?_range hpos]
    rfl
  · intro h d n hmem
    have hlt : d < 2 := by
      rcases hmem with hm | hm
      · rw [mem_recvCalls, ht.recv] at hm
        obtain ⟨k, _, hk⟩ := List.mem_map.mp hm
        have : k % 2 = d := by simpa using congrArg (fun x => x.2.1) hk
        omega
      · rw [mem_sendCalls, ht.send] at hm
        obtain ⟨k, _, hk⟩ := List.mem_map.mp hm
        have : (k + 1) % 2 = d := by simpa using congrArg (fun x => x.2.1) hk
        omega
    omega
  · have hlt : (mainRun pol mem0 out0 es).input_buf_number < 2 := by
      rw [ht.index]
      exact Nat.mod_lt _ (by decide)
    omega

/-- C8 applied to a concrete run: the second receive call of a run with one
hand-off. -/
theorem C8_receive_targets_alternate_witness :
    (recvCalls (mainRun CountPolicy.incremental zeroMem 0
        (feed blockA ++ iteration)).trace)[1]? =
      some (USART_HDL.USART1, 1, DATA_SIZE) ∧
    (USART_HDL.USART1, 1, DATA_SIZE) = (USART_HDL.USART1, 1 % 2, DATA_SIZE) :=
  ⟨by decide,
   (C8_receive_targets_alternate CountPolicy.incremental zeroMem 0
      (feed blockA ++ iteration)).2.2.1 1 (USART_HDL.USART1, 1, DATA_SIZE)
    (by decide)⟩

/-- C9: every `Usart_SendData` call in the trace of a run is on USART2 with
size `DATA_SIZE`; an iteration that reads a count other than `DATA_SIZE`
changes nothing at all (no call, same `input_buf_number` and
`output_buf_number`), and so does the test of line 89 taken as one statement;
an iteration that adds a send has read `DATA_SIZE`; a step that adds a send to
the trace is the statement of line 94; `main` leaves the test of line 89 only
when it reads `DATA_SIZE`; and in every run the sends made, plus the one of a
hand-off in progress, are as many as the tests that read `DATA_SIZE`. -/
theorem C9_send_only_on_full_block (pol : CountPolicy) (mem0 : List (List Nat))
    (out0 : Nat) (es : List Event) :
    (∀ (h : USART_HDL) (d n : Nat),
      Call.Usart_SendData h d n ∈ (mainRun pol mem0 out0 es).trace →
      h = USART_HDL.USART2 ∧ n = DATA_SIZE ∧ DATA_SIZE = 128) ∧
    (∀ s : State, s.bytesReceived ≠ DATA_SIZE → loopBody pol s = s) ∧
    (∀ s : State, s.pc = Pc.test → s.bytesReceived ≠ DATA_SIZE →
      step pol s Event.stmt = s) ∧
    (∀ s : State, sendCalls (loopBody pol s).trace ≠ sendCalls s.trace →
      s.bytesReceived = DATA_SIZE) ∧
    (∀ (s : State) (e : Event),
      sendCalls (step pol s e).trace ≠ sendCalls s.trace →
      e = Event.stmt ∧ s.pc = Pc.send) ∧
    (∀ (s : State) (e : Event), s.pc = Pc.test → (step pol s e).pc ≠ Pc.test →
      e = Event.stmt ∧ s.bytesReceived = DATA_SIZE) ∧
    ((sendCalls (mainRun pol mem0 out0 es).trace).length +
        (if (mainRun pol mem0 out0 es).pc = Pc.test then 0 else 1) =
      testsPassed pol (mainStart pol mem0 out0) es) := by
  have ht := traceInv_run pol mem0 out0 es
  refine ⟨?_, fun s hb => loopBody_idle pol s hb, ?_, ?_, ?_, ?_, ?_⟩
  · intro h d n hmem
    rw [mem_sendCalls, ht.send] at hmem
    obtain ⟨k, _, hk⟩ := List.mem_map.mp hmem
    simp only [Prod.mk.injEq] at hk
    exact ⟨hk.1.symm, hk.2.2.symm, rfl⟩
  · intro s hpc hb
    simp [step, mainStep, hpc, hb]
  · intro s hne
    by_contra hb
    rw [loopBody_idle pol s hb] at hne
    exact hne rfl
  · intro s e hne
    by_cases he : e = Event.stmt
    · subst he
      refine ⟨rfl, ?_⟩
      cases hpc : s.pc with
      | send => rfl
      | test =>
        exfalso
        apply hne
        by_cases hb : s.bytesReceived = DATA_SIZE <;> simp [step, mainStep, hpc, hb]
      | rearm =>
        exfalso
        apply hne
        simp [step, mainStep, hpc, Usart_ReceiveData, sendCalls_append, sendCalls]
      | copy =>
        exfalso
        apply hne
        simp [step, mainStep, hpc]
      | toggle =>
        exfalso
        apply hne
        simp [step, mainStep, hpc]
    · rw [(hw_frame pol s e he).1] at hne
      exact absurd rfl hne
  · intro s e hpc hne
    by_cases he : e = Event.stmt
    · subst he
      refine ⟨rfl, ?_⟩
      by_contra hb
      apply hne
      simp [step, mainStep, hpc, hb]
    · rw [(hw_frame pol s e he).2.1] at hne
      exact absurd hpc hne
  · have := sends_account pol es (mainStart pol mem0 out0)
    have h0 : (sendCalls (mainStart pol mem0 out0).trace).length +
        (if (mainStart pol mem0 out0).pc = Pc.test then 0 else 1) = 0 := by
      simp [mainStart, USART_Init, Usart_Init, Usart_SetEnable, Usart_ReceiveData,
        sendCalls]
    rw [h0] at this
    simpa [mainRun] using this

/-- C9 applied to a concrete state: an iteration right after start-up, when
nothing has been received, leaves the state as it is. -/
theorem C9_send_only_on_full_block_witness :
    (mainStart CountPolicy.incremental zeroMem 0).bytesReceived ≠ DATA_SIZE ∧
    loopBody CountPolicy.incremental (mainStart CountPolicy.incremental zeroMem 0) =
      mainStart CountPolicy.incremental zeroMem 0 :=
  ⟨by decide,
   (C9_send_only_on_full_block CountPolicy.incremental zeroMem 0 []).2.1
    (mainStart CountPolicy.incremental zeroMem 0) (by decide)⟩

/-- C10: a hand-off iteration passes to `Usart_SendData` the index it has
just passed to `Usart_ReceiveData`, which is also the new `output_buf_number`,
and leaves `input_buf_number` at the other index; in every run the `k`-th
send, counted from 1, targets buffer `k mod 2`; five statements in a row from
the test are one such iteration; and with the hardware acting between the
statements the send of a hand-off still gets the index of its re-arm. -/
theorem C10_send_uses_rearmed_index (pol : CountPolicy) (mem0 : List (List Nat))
    (out0 : Nat) (es : List Event) :
    (∀ s : State, s.bytesReceived = DATA_SIZE →
      (loopBody pol s).trace = s.trace ++
        [Call.Usart_ReceiveData USART_HDL.USART1 s.input_buf_number DATA_SIZE,
         Call.Usart_SendData USART_HDL.USART2 (loopBody pol s).output_buf_number
           DATA_SIZE] ∧
      (loopBody pol s).output_buf_number = s.input_buf_number ∧
      (s.input_buf_number < 2 →
        (loopBody pol s).input_buf_number = 1 - s.input_buf_number)) ∧
    (mainRun pol mem0 out0 es).input_buf_number < 2 ∧
    (∀ (j : Nat) (c : USART_HDL × Nat × Nat),
      (sendCalls (mainRun pol mem0 out0 es).trace)[j]? = some c →
      c = (USART_HDL.USART2, (j + 1) % 2, DATA_SIZE)) ∧
    (∀ s : State, s.pc = Pc.test → run pol s iteration = loopBody pol s) ∧
    (∀ more : List Event,
      (mainRun pol mem0 out0 es).pc = Pc.test →
      (mainRun pol mem0 out0 es).bytesReceived = DATA_SIZE →
      stmtCount more = 5 →
      (mainRun pol mem0 out0 (es ++ more)).trace =
        (mainRun pol mem0 out0 es).trace ++
          [Call.Usart_ReceiveData USART_HDL.USART1
             (mainRun pol mem0 out0 es).input_buf_number DATA_SIZE,
           Call.Usart_SendData USART_HDL.USART2
             (mainRun pol mem0 out0 es).input_buf_number DATA_SIZE]) := by
  have ht := traceInv_run pol mem0 out0 es
  refine ⟨?_, ?_, ?_, fun s hpc => iteration_eq_loopBody pol s hpc,
    fun more hpc hb hn => handoff_calls pol mem0 out0 es more hpc hb hn⟩
  · intro s hb
    refine ⟨?_, loopBody_output_buf_number pol s hb, ?_⟩
    · rw [loopBody_output_buf_number pol s hb]
      exact loopBody_trace pol s hb
    · intro hlt
      rw [loopBody_input_buf_number pol s hb]
      exact toggle_index _ hlt
  · rw [ht.index]
    exact Nat.mod_lt _ (by decide)
  · intro j c hc
    rw [ht.send, List.getElem?_map] at hc
    by_cases hlt : j < (sendCalls (mainRun pol mem0 out0 es).trace).length
    · rw [List.getElem?_range hlt] at hc
      simpa using hc.symm
    · rw [List.getElem?_eq_none (by simpa using hlt)] at hc
      simp at hc

/-- C10 applied to a concrete run: the first send of a run with one
hand-off. -/
theorem C10_send_uses_rearmed_index_witness :
    (sendCalls (mainRun CountPolicy.incremental zeroMem 0
        (feed blockA ++ iteration)).trace)[0]? =
      some (USART_HDL.USART2, 1, DATA_SIZE) ∧
    (USART_HDL.USART2, 1, DATA_SIZE) = (USART_HDL.USART2, (0 + 1) % 2, DATA_SIZE) :=
  ⟨by decide,
   (C10_send_uses_rearmed_index CountPolicy.incremental zeroMem 0
      (feed blockA ++ iteration)).2.2.1 0 (USART_HDL.USART2, 1, DATA_SIZE)
    (by decide)⟩

end Relay
